import Mathlib

/-!
# A verification development for the `cpl-sdk` client

This file gives a shallow embedding, in Lean 4, of the logic of
`src/cpl/client.py` (together with the constants of `src/cpl/constants.py`
and the exception kinds of `src/cpl/exceptions.py`), and proves the
behavioural properties of that code that the repository's specification
states.

Modelling conventions:
* Python dictionaries with a statically known key set (`TypedDict` shapes,
  the literal dicts built by `client.py`) become Lean structures; ad-hoc
  dictionaries whose key set is dynamic (the records passed to
  `_enrich_player_data`) become association lists of string keys.
* Python exceptions become `Option`/`Except` results: a raised exception is
  `none` / `.error e`.
* The HTTP transport is an explicit parameter: a function under test takes
  the outcome of the underlying `httpx` call (`Except HttpxError α`) and we
  prove how the function maps each outcome, which is all that the
  error-handling code of `client.py` inspects.
-/

namespace CPL

/-! ## Generic dictionary model (Python `dict` with mixed values) -/

/-- A value stored in one of the ad-hoc player-data dictionaries of
`client.py`: the code stores either strings (identity fields, image url,
bio) or machine integers (`value`, `ranking`). -/
inductive Val where
  | str : String → Val
  | int : Int → Val
deriving DecidableEq, Repr

/-- A Python `dict` with string keys, modelled as an association list in
insertion order (Python dicts preserve insertion order; keys are unique). -/
abbrev Dict := List (String × Val)

/-- The lookup `dget d k` models `d.get(k)` / `k in d`: the value at the first (hence
only) occurrence of `k`, if any. -/
def dget : Dict → String → Option Val
  | [], _ => none
  | (k', v) :: rest, k => if k' = k then some v else dget rest k

/-- The update `dset d k v` models the Python assignment `d[k] = v`: overwrite the
existing binding of `k` in place, else append a new binding at the end. -/
def dset : Dict → String → Val → Dict
  | [], k, v => [(k, v)]
  | (k', v') :: rest, k, v =>
      if k' = k then (k, v) :: rest else (k', v') :: dset rest k v

/-- Python truthiness of a dict value, as used by `if player_id:` in
`client.py`: the empty string and the integer `0` are falsy. -/
def valTruthy : Val → Bool
  | .str s => s ≠ ""
  | .int n => n ≠ 0

/-! ## The player enrichment cache (`_initialize_player_cache` data) -/

/-- One entry of `CPLClient._player_cache`: `_initialize_player_cache`
always stores all three keys, each defaulted to `""`, so they are plain
strings here. -/
structure CacheEntry where
  image_url : String
  bio : String
  name : String
deriving DecidableEq, Repr

/-- The player cache `CPLClient._player_cache` : a string-keyed dict of
`CacheEntry`, modelled as an association list with unique keys. -/
abbrev Cache := List (String × CacheEntry)

/-- Cache lookup, modelling `player_id in self._player_cache` together with
`self._player_cache[player_id]`. -/
def clookup : Cache → String → Option CacheEntry
  | [], _ => none
  | (k', e) :: rest, k => if k' = k then some e else clookup rest k

/-- Embedding of `CPLClient._enrich_player_data` (client.py lines 79–85):
if `player_id` is a key of the cache, set the record's `"image_url"` and
`"bio"` entries to the cached values; otherwise return the record as is.
The Python function is synchronous, performs no I/O and cannot raise, which
the model reflects by being a total pure function. -/
def enrich_player_data (cache : Cache) (player_data : Dict) (player_id : String) : Dict :=
  match clookup cache player_id with
  | some e => dset (dset player_data "image_url" (.str e.image_url)) "bio" (.str e.bio)
  | none => player_data

/-! ## Model of Python `int()` on strings -/

/-- Value of a nonempty string of decimal digits; `none` if empty or any
character is not a digit. -/
def parseDigits (cs : List Char) : Option Nat :=
  if cs.isEmpty then none
  else cs.foldlM (fun acc c => if c.isDigit then some (acc * 10 + (c.toNat - 48)) else none) 0

/-- Model of the Python builtin `int()` applied to a `str` (the type of
`Stat.value` in `types.py`): optional surrounding spaces, an optional sign,
then one or more decimal digits; any other string raises `ValueError`,
modelled as `none`.  (CPython additionally accepts underscores between
digits and other unicode whitespace; those inputs do not occur in this
development.) -/
def pyInt (s : String) : Option Int :=
  let cs := s.toList.dropWhile (fun c => c = ' ')
  let cs := (cs.reverse.dropWhile (fun c => c = ' ')).reverse
  match cs with
  | '-' :: rest => (parseDigits rest).map (fun n => -(n : Int))
  | '+' :: rest => (parseDigits rest).map (fun n => (n : Int))
  | rest => (parseDigits rest).map (fun n => (n : Int))

/-! ## Stats data model (`types.py` and the dict literals of `client.py`) -/

/-- From `types.py`, `Stat`: one named statistic; its value is a *string*. -/
structure Stat where
  name : String
  value : String
deriving DecidableEq, Repr

/-- From `types.py`, `Player` (the fields read by `client.py`): identity fields
plus an optional `stat` list (`NotRequired` in the source).  The
`image_url`/`bio` fields model the keys that `_enrich_player_data` may add
to the player dict; they are absent (`none`) unless enrichment adds them. -/
structure Player where
  position : String
  id : String
  shirtNumber : String
  firstName : String
  lastName : String
  shortFirstName : String
  shortLastName : String
  matchName : String
  team : String
  stat : Option (List Stat)
  image_url : Option String := none
  bio : Option String := none
deriving DecidableEq, Repr

/-- From `types.py`, `Feed`. -/
structure Feed where
  url : String
  team : String
deriving DecidableEq, Repr

/-- From `types.py`, `TeamContestant`: the entries of the `contestant` list of a
team-stats payload. -/
structure Contestant where
  id : String
  name : String
  stat : List Stat
  team : String
deriving DecidableEq, Repr

/-- The `TeamStats` shape used by `client.py` (imported from `types` but
not declared there; its keys are fixed by the payload access
`team_stats.get("contestant", [])` and by the empty-shape sentinel
`{"ip": "", "feeds": [], "contestant": []}` of `get_team_stats`). -/
structure TeamStats where
  ip : String
  feeds : List Feed
  contestant : List Contestant
deriving DecidableEq, Repr

/-- The `PlayerStats` shape used by `client.py` (imported from `types` but
not declared there; its keys are fixed by `player_stats.get("player", [])`
and by the sentinel `{"ip": "", "feeds": [], "player": []}` of
`get_player_stats`). -/
structure PlayerStats where
  ip : String
  feeds : List Feed
  player : List Player
deriving DecidableEq, Repr

/-- The `LeaderboardEntry` shape used by `client.py` (imported from `types`
but not declared there; its keys are exactly those of the dict literal at
client.py lines 307–319, plus the `image_url`/`bio` keys that
`_enrich_player_data` may add). -/
structure LeaderboardEntry where
  player_id : String
  full_name : String
  position : String
  shirt_number : String
  short_first_name : String
  short_last_name : String
  match_name : String
  team_id : String
  team_name : String
  value : Int
  ranking : Int
  image_url : Option String := none
  bio : Option String := none
deriving DecidableEq, Repr

/-- The eight leaderboard categories: the key set of the dict literal at
client.py lines 277–286, which coincides with the key set of
`LEADERBOARD_CATEGORIES` in `constants.py`. -/
inductive Category where
  | GOALS | ASSISTS | SAVES | PASSES | INTERCEPTIONS | TACKLES | RED_CARDS | YELLOW_CARDS
deriving DecidableEq, Repr

/-- From `constants.py` line 79: `LEADERBOARD_LIMIT = 5`.  Note that `client.py`
never references this constant. -/
def LEADERBOARD_LIMIT : Nat := 5

/-- From `constants.py` lines 68–77: the category → stat-id mapping
`LEADERBOARD_CATEGORIES`.  Note that `client.py` never references this
mapping either; the leaderboard code matches on the stat *names* of
`Category.statNames` instead. -/
def LEADERBOARD_CATEGORIES : Category → String
  | .GOALS => "goals"
  | .ASSISTS => "assists"
  | .SAVES => "saves"
  | .PASSES => "total-pass"
  | .INTERCEPTIONS => "interception"
  | .TACKLES => "tackle"
  | .RED_CARDS => "red-cards"
  | .YELLOW_CARDS => "yellow-cards"

/-- The stat-name lists passed to `_extract_stat_value` for each category
(client.py lines 296–303). -/
def Category.statNames : Category → List String
  | .GOALS => ["Goals"]
  | .ASSISTS => ["Goal Assists"]
  | .SAVES => ["Saves Made"]
  | .PASSES => ["Total Passes"]
  | .INTERCEPTIONS => ["Interceptions"]
  | .TACKLES => ["Tackles Won"]
  | .RED_CARDS => ["Total Red Cards"]
  | .YELLOW_CARDS => ["Yellow Cards"]

/-- A `PlayerLeaderboards` value (imported from `types` by `client.py` but
not declared there): the dict from category to entry list, total over the
eight fixed categories. -/
def PlayerLeaderboards : Type := Category → List LeaderboardEntry

/-! ## The leaderboard engine (`client.py` lines 266–348) -/

/-- The loop of `CPLClient._extract_stat_value` with the running total made
explicit: for each stat whose name is in `stat_names`, add
`int(stat["value"])` to the total; `int()` raises `ValueError` on a
non-numeric string, aborting the loop (`none`). -/
def extractFrom (stat_names : List String) (total : Int) : List Stat → Option Int
  | [] => some total
  | s :: rest =>
    if s.name ∈ stat_names then
      match pyInt s.value with
      | some v => extractFrom stat_names (total + v) rest
      | none => none
    else extractFrom stat_names total rest

/-- Embedding of `CPLClient._extract_stat_value` (client.py lines 266–273):
sum `int(stat["value"])` over the stats whose name is in `stat_names`,
starting from `total = 0`. -/
def extract_stat_value (stats : List Stat) (stat_names : List String) : Option Int :=
  extractFrom stat_names 0 stats

/-- The eight `_extract_stat_value` calls at client.py lines 296–303,
performed for one player's stat list; they all run before any entry is
appended, and a `ValueError` in any of them aborts the whole leaderboard
computation (`none`). -/
def playerValues (st : List Stat) : Option (Category → Int) := do
  let goals ← extract_stat_value st ["Goals"]
  let assists ← extract_stat_value st ["Goal Assists"]
  let saves ← extract_stat_value st ["Saves Made"]
  let passes ← extract_stat_value st ["Total Passes"]
  let interceptions ← extract_stat_value st ["Interceptions"]
  let tackles ← extract_stat_value st ["Tackles Won"]
  let red_cards ← extract_stat_value st ["Total Red Cards"]
  let yellow_cards ← extract_stat_value st ["Yellow Cards"]
  pure fun c => match c with
    | .GOALS => goals
    | .ASSISTS => assists
    | .SAVES => saves
    | .PASSES => passes
    | .INTERCEPTIONS => interceptions
    | .TACKLES => tackles
    | .RED_CARDS => red_cards
    | .YELLOW_CARDS => yellow_cards

/-- String-valued dict operations for the team code → name map
(client.py line 289); same semantics as `dset`/`dget` at type `String`. -/
def sset : List (String × String) → String → String → List (String × String)
  | [], k, v => [(k, v)]
  | (k', v') :: rest, k, v =>
      if k' = k then (k, v) :: rest else (k', v') :: sset rest k v

/-- First-occurrence lookup in a string-valued dict. -/
def slookup : List (String × String) → String → Option String
  | [], _ => none
  | (k', v) :: rest, k => if k' = k then some v else slookup rest k

/-- The dict comprehension at client.py line 289:
`{contestant["team"]: contestant["name"] for contestant in team_stats.get("contestant", [])}`
(later occurrences of a team code overwrite earlier ones, as in a Python
dict comprehension). -/
def team_map (team_stats : TeamStats) : List (String × String) :=
  team_stats.contestant.foldl (fun m c => sset m c.team c.name) []

/-- The base leaderboard entry built for one player (client.py lines
305–321): the dict literal `current_player_data` (with `value = 0`,
`ranking = 0`), passed through `_enrich_player_data`, which — on a cache
hit — adds the `image_url` and `bio` keys (see `enrich_player_data`; the
keys are absent from the literal, so "overwrite" means "add" here). -/
def playerEntryBase (tm : List (String × String)) (cache : Cache) (p : Player) : LeaderboardEntry :=
  let base : LeaderboardEntry :=
    { player_id := p.id
      full_name := p.firstName ++ " " ++ p.lastName
      position := p.position
      shirt_number := p.shirtNumber
      short_first_name := p.shortFirstName
      short_last_name := p.shortLastName
      match_name := p.matchName
      team_id := p.team
      team_name := (slookup tm p.team).getD ""
      value := 0
      ranking := 0 }
  match clookup cache p.id with
  | some e => { base with image_url := some e.image_url, bio := some e.bio }
  | none => base

/-- The per-player accumulation loop of `_calculate_player_leaderboards`
(client.py lines 291–339): players lacking the `"stat"` key are skipped;
otherwise the eight stat values are extracted (aborting everything on a
`ValueError`) and, for each category with a strictly positive value, a copy
of the player's entry carrying that value is appended to the category's
list. -/
def accumulate (cache : Cache) (tm : List (String × String)) :
    List Player → PlayerLeaderboards → Option PlayerLeaderboards
  | [], acc => some acc
  | p :: ps, acc =>
    match p.stat with
    | none => accumulate cache tm ps acc
    | some st =>
      match playerValues st with
      | none => none
      | some vals =>
        let pd := playerEntryBase tm cache p
        accumulate cache tm ps
          (fun c => acc c ++ (if vals c > 0 then [{ pd with value := vals c }] else []))

/-- Stable insertion of an entry into a list sorted by descending `value`:
the entry goes in front of the first element whose value is not strictly
greater, so among equal values an earlier-inserted element stays earlier. -/
def insertDesc (e : LeaderboardEntry) : List LeaderboardEntry → List LeaderboardEntry
  | [] => [e]
  | x :: xs => if x.value > e.value then x :: insertDesc e xs else e :: x :: xs

/-- Stable sort by descending `value`: extensionally equal to Python's
`sorted(entries, key=lambda x: x["value"], reverse=True)` at client.py line
343 (Timsort is stable, and `reverse=True` keeps ties in encounter order). -/
def sortDesc : List LeaderboardEntry → List LeaderboardEntry
  | [] => []
  | x :: xs => insertDesc x (sortDesc xs)

/-- The ranking loop at client.py lines 345–346: assign `ranking = i + 1`
to the `i`-th (0-based) entry of the sorted list; `rankFrom k` ranks a
suffix starting at rank `k`. -/
def rankFrom (k : Int) : List LeaderboardEntry → List LeaderboardEntry
  | [] => []
  | e :: es => { e with ranking := k } :: rankFrom (k + 1) es

/-- Embedding of `CPLClient._calculate_player_leaderboards` (client.py
lines 275–348): initialize all eight categories empty, accumulate the
qualifying entries player by player, then sort each category by descending
value and assign 1-based rankings.  No truncation is performed (client.py
never uses `LEADERBOARD_LIMIT`).  `none` models the `ValueError` raised by
`int()` on a non-numeric stat value. -/
def calculate_player_leaderboards (cache : Cache) (player_stats : PlayerStats)
    (team_stats : TeamStats) : Option PlayerLeaderboards :=
  (accumulate cache (team_map team_stats) player_stats.player (fun _ => [])).map
    (fun acc c => rankFrom 1 (sortDesc (acc c)))

/-- The category lists of a possibly-failed leaderboard computation; a
convenience projection used to state the theorems below. -/
def boardsAt (o : Option PlayerLeaderboards) (c : Category) : Option (List LeaderboardEntry) :=
  o.map (fun L => L c)

/-! ## HTTP transport and error kinds (`_get`, `exceptions.py`) -/

/-- The failure outcomes of the underlying `httpx` GET that `_get`
distinguishes: `httpx.TimeoutException` and any other `httpx.HTTPError`
(including non-2xx statuses via `raise_for_status`).  In `httpx`,
`TimeoutException` is itself an `HTTPError`, but `_get` matches it first,
so the two constructors here are the two disjoint branches actually taken;
`msg` is the exception's message (`str(te)` / `str(he)`). -/
inductive HttpxError where
  | timeout : String → HttpxError
  | httpError : String → HttpxError
deriving DecidableEq, Repr

/-- The SDK error kinds of `exceptions.py`: `APITimeoutError` and
`RequestError` are *sibling* subclasses of `CPLSDKError` (neither extends
the other).  Each carries the message it was raised with and, via `raise
... from`, the underlying `httpx` exception as its cause. -/
inductive CPLError where
  | apiTimeout : String → HttpxError → CPLError
  | requestError : String → HttpxError → CPLError
deriving DecidableEq, Repr

/-- The message of a `CPLError`, i.e. Python's `str(err)`. -/
def CPLError.msg : CPLError → String
  | .apiTimeout m _ => m
  | .requestError m _ => m

/-- Embedding of `CPLClient._get` (client.py lines 87–104) as a function of
the transport outcome: a successful response's JSON is returned; an
`httpx.TimeoutException` is re-raised as `APITimeoutError("Timeout error:
...")` (cause preserved); any other `httpx.HTTPError` is re-raised as
`RequestError("Error fetching data: ...")` (cause preserved). -/
def get {α : Type} (outcome : Except HttpxError α) : Except CPLError α :=
  match outcome with
  | .ok data => .ok data
  | .error (.timeout m) => .error (.apiTimeout ("Timeout error: " ++ m) (.timeout m))
  | .error (.httpError m) => .error (.requestError ("Error fetching data: " ++ m) (.httpError m))

/-- Substring test on character lists: does `sub` occur contiguously in
`l`?  Models the Python expression `"404" in str(err)`. -/
def containsSub (sub : List Char) : List Char → Bool
  | [] => decide (sub = [])
  | c :: rest => sub.isPrefixOf (c :: rest) || containsSub sub rest

/-- The test `hasSub sub s` models Python's `sub in s` on strings. -/
def hasSub (sub s : String) : Bool :=
  containsSub sub.toList s.toList

/-! ## Roster, player-career and stats retrieval (`get_roster`,
`get_team_stats`, `get_player_stats`) -/

/-- The part of a `types.py` `Squad` that `get_roster` reads or writes: its
(possibly missing) `person` list.  Persons are the ad-hoc dictionaries that
`_enrich_player_data` receives; the many remaining `Squad` fields are
carried through `get_roster` untouched and are not modelled. -/
structure Squad where
  person : Option (List Dict)
deriving DecidableEq, Repr

/-- From `types.py`, `TeamRoster`: the roster payload, and the shape of the
empty sentinel `{"squad": [], "lastUpdated": ""}`. -/
structure TeamRoster where
  squad : List Squad
  lastUpdated : String
deriving DecidableEq, Repr

/-- The per-person enrichment step of `get_roster` (client.py lines
163–168): read `person.get("id")`; when it is truthy, enrich the person
with `_enrich_player_data`.  A non-string id cannot be a key of the
string-keyed cache, so enrichment leaves the record unchanged in that
case. -/
def enrich_person (cache : Cache) (person : Dict) : Dict :=
  match dget person "id" with
  | some (.str s) => if s ≠ "" then enrich_player_data cache person s else person
  | some (.int _) => person
  | none => person

/-- Embedding of `CPLClient.get_roster` (client.py lines 142–178) as a
function of the transport outcome: on success, enrich the persons of the
*first* squad (when a nonempty squad list with a `person` key is present);
on a `RequestError` whose message contains `"404"`, return the empty-shape
sentinel; re-raise every other error (`APITimeoutError` is not caught by
`except RequestError`). -/
def get_roster (cache : Cache) (transport : Except HttpxError TeamRoster) :
    Except CPLError TeamRoster :=
  match get transport with
  | .ok data =>
    .ok { data with squad :=
      match data.squad with
      | [] => []
      | first :: rest =>
        (match first.person with
         | some persons => { first with person := some (persons.map (enrich_person cache)) }
         | none => first) :: rest }
  | .error (.requestError m cause) =>
    if hasSub "404" m then .ok { squad := [], lastUpdated := "" }
    else .error (.requestError m cause)
  | .error e => .error e

/-- Embedding of `CPLClient.get_team_stats` (client.py lines 180–196): pass
the payload through; on a `RequestError` whose message contains `"404"`,
return `{"ip": "", "feeds": [], "contestant": []}`; re-raise every other
error. -/
def get_team_stats (transport : Except HttpxError TeamStats) : Except CPLError TeamStats :=
  match get transport with
  | .ok data => .ok data
  | .error (.requestError m cause) =>
    if hasSub "404" m then .ok { ip := "", feeds := [], contestant := [] }
    else .error (.requestError m cause)
  | .error e => .error e

/-- The per-player enrichment step of `get_player_stats` (client.py lines
210–218): when the player's id is truthy and cached, add the cached image
url and bio to the player record. -/
def enrich_player (cache : Cache) (p : Player) : Player :=
  if p.id ≠ "" then
    match clookup cache p.id with
    | some e => { p with image_url := some e.image_url, bio := some e.bio }
    | none => p
  else p

/-- Embedding of `CPLClient.get_player_stats` (client.py lines 198–228): on
success, enrich each player of the payload; on a `RequestError` whose
message contains `"404"`, return `{"ip": "", "feeds": [], "player": []}`;
re-raise every other error. -/
def get_player_stats (cache : Cache) (transport : Except HttpxError PlayerStats) :
    Except CPLError PlayerStats :=
  match get transport with
  | .ok data => .ok { data with player := data.player.map (enrich_player cache) }
  | .error (.requestError m cause) =>
    if hasSub "404" m then .ok { ip := "", feeds := [], player := [] }
    else .error (.requestError m cause)
  | .error e => .error e

/-! ## Lemmas about the stable descending sort -/

/-- Membership in an insertion. -/
lemma mem_insertDesc {a e : LeaderboardEntry} {l : List LeaderboardEntry} :
    a ∈ insertDesc e l ↔ a = e ∨ a ∈ l := by
  induction l with
  | nil => simp [insertDesc]
  | cons x xs ih =>
    by_cases h : x.value > e.value
    · simp only [insertDesc, if_pos h, List.mem_cons, ih]
      tauto
    · simp only [insertDesc, if_neg h, List.mem_cons]

/-- Membership is preserved by the sort. -/
lemma mem_sortDesc {a : LeaderboardEntry} {l : List LeaderboardEntry} :
    a ∈ sortDesc l ↔ a ∈ l := by
  induction l with
  | nil => simp [sortDesc]
  | cons x xs ih => simp [sortDesc, mem_insertDesc, ih]

/-- Inserting preserves descending sortedness (by `value`). -/
lemma pairwise_insertDesc {e : LeaderboardEntry} {l : List LeaderboardEntry}
    (h : l.Pairwise (fun a b => b.value ≤ a.value)) :
    (insertDesc e l).Pairwise (fun a b => b.value ≤ a.value) := by
  induction l with
  | nil => simp [insertDesc]
  | cons x xs ih =>
    rcases List.pairwise_cons.mp h with ⟨hx, hxs⟩
    by_cases hv : x.value > e.value
    · simp only [insertDesc, if_pos hv]
      refine List.pairwise_cons.mpr ⟨?_, ih hxs⟩
      intro a ha
      rcases mem_insertDesc.mp ha with rfl | ha
      · exact le_of_lt hv
      · exact hx a ha
    · simp only [insertDesc, if_neg hv]
      refine List.pairwise_cons.mpr ⟨?_, h⟩
      intro a ha
      rcases List.mem_cons.mp ha with rfl | ha
      · exact le_of_not_lt hv
      · exact le_trans (hx a ha) (le_of_not_lt hv)

/-- The sort produces a list descending in `value`. -/
lemma sorted_sortDesc (l : List LeaderboardEntry) :
    (sortDesc l).Pairwise (fun a b => b.value ≤ a.value) := by
  induction l with
  | nil => simp [sortDesc]
  | cons x xs ih => exact pairwise_insertDesc ih

/-- Stability of a single insertion: restricted to any one `value`, the
inserted element lands at the end of nothing — i.e. in front of exactly the
equal-valued elements already present, preserving their order.  (All
elements skipped over have a strictly greater `value`.) -/
lemma filter_insertDesc (v : Int) (e : LeaderboardEntry) (l : List LeaderboardEntry) :
    (insertDesc e l).filter (fun a => a.value = v) =
      if e.value = v then e :: l.filter (fun a => a.value = v)
      else l.filter (fun a => a.value = v) := by
  induction l with
  | nil =>
    simp only [insertDesc, List.filter_cons, List.filter_nil]
    by_cases he : e.value = v <;> simp [he]
  | cons x xs ih =>
    by_cases hv : x.value > e.value
    · have hxv : e.value = v → ¬(x.value = v) := by
        intro he hx
        omega
      simp only [insertDesc, if_pos hv, List.filter_cons, ih]
      by_cases he : e.value = v
      · simp [he, hxv he]
      · simp [he]
    · simp only [insertDesc, if_neg hv, List.filter_cons]
      by_cases he : e.value = v
      · simp [he]
      · simp [he]

/-- Stability of the sort: for every value `v`, the sorted list restricted
to entries of value `v` is the input list restricted to entries of value
`v`, in the same order. -/
lemma filter_sortDesc (v : Int) (l : List LeaderboardEntry) :
    (sortDesc l).filter (fun a => a.value = v) = l.filter (fun a => a.value = v) := by
  induction l with
  | nil => rfl
  | cons x xs ih =>
    simp only [sortDesc, filter_insertDesc, List.filter_cons, ih]
    by_cases he : x.value = v
    · simp [he]
    · simp [he]

/-! ## Lemmas about the ranking pass -/

/-- An entry with its `ranking` field cleared; two entries are "the same
apart from ranking" when their `eraseRank` images agree. -/
def eraseRank (e : LeaderboardEntry) : LeaderboardEntry := { e with ranking := 0 }

lemma eraseRank_setRank (e : LeaderboardEntry) (k : Int) :
    eraseRank { e with ranking := k } = eraseRank e := rfl

@[simp] lemma value_eraseRank (e : LeaderboardEntry) : (eraseRank e).value = e.value := rfl

/-- The integer range `[k, k + 1, ..., k + n - 1]`. -/
def intRange (k : Int) : Nat → List Int
  | 0 => []
  | n + 1 => k :: intRange (k + 1) n

@[simp] lemma length_rankFrom (k : Int) (l : List LeaderboardEntry) :
    (rankFrom k l).length = l.length := by
  induction l generalizing k with
  | nil => rfl
  | cons e es ih => simp [rankFrom, ih]

/-- The ranking pass writes consecutive integers starting at `k`. -/
lemma map_ranking_rankFrom (k : Int) (l : List LeaderboardEntry) :
    (rankFrom k l).map (fun e => e.ranking) = intRange k l.length := by
  induction l generalizing k with
  | nil => rfl
  | cons e es ih => simp [rankFrom, intRange, ih]

/-- The ranking pass only rewrites `ranking`: the `eraseRank` images are
unchanged. -/
lemma map_eraseRank_rankFrom (k : Int) (l : List LeaderboardEntry) :
    (rankFrom k l).map eraseRank = l.map eraseRank := by
  induction l generalizing k with
  | nil => rfl
  | cons e es ih => simp [rankFrom, eraseRank_setRank, ih]

/-- The ranking pass preserves the `value` sequence. -/
lemma map_value_rankFrom (k : Int) (l : List LeaderboardEntry) :
    (rankFrom k l).map (fun e => e.value) = l.map (fun e => e.value) := by
  induction l generalizing k with
  | nil => rfl
  | cons e es ih => simp [rankFrom, ih]

/-- The ranking pass preserves descending sortedness in `value`. -/
lemma pairwise_rankFrom (k : Int) {l : List LeaderboardEntry}
    (h : l.Pairwise (fun a b => b.value ≤ a.value)) :
    (rankFrom k l).Pairwise (fun a b => b.value ≤ a.value) := by
  induction l generalizing k with
  | nil => exact List.Pairwise.nil
  | cons e es ih =>
    rcases List.pairwise_cons.mp h with ⟨he, hes⟩
    refine List.pairwise_cons.mpr ⟨?_, ih k.succ hes⟩
    intro a ha
    have : eraseRank a ∈ (rankFrom (k + 1) es).map eraseRank := List.mem_map_of_mem _ ha
    rw [map_eraseRank_rankFrom] at this
    rcases List.mem_map.mp this with ⟨b, hb, hab⟩
    have : a.value = b.value := by
      have h1 : (eraseRank a).value = (eraseRank b).value := by rw [hab]
      simpa using h1
    rw [this]
    exact he b hb

/-- Membership after ranking, forwards: every output entry is an input
entry with its rank rewritten. -/
lemma of_mem_rankFrom {e : LeaderboardEntry} {k : Int} {l : List LeaderboardEntry}
    (h : e ∈ rankFrom k l) : ∃ e' ∈ l, eraseRank e = eraseRank e' := by
  induction l generalizing k with
  | nil => simp [rankFrom] at h
  | cons x xs ih =>
    rcases List.mem_cons.mp h with rfl | h
    · exact ⟨x, List.mem_cons_self x xs, eraseRank_setRank x k⟩
    · rcases ih h with ⟨e', he', heq⟩
      exact ⟨e', List.mem_cons_of_mem x he', heq⟩

/-- Membership after ranking, backwards: every input entry survives as an
output entry up to its rank. -/
lemma mem_rankFrom_of_mem {e' : LeaderboardEntry} {l : List LeaderboardEntry}
    (h : e' ∈ l) (k : Int) : ∃ e ∈ rankFrom k l, eraseRank e = eraseRank e' := by
  induction l generalizing k with
  | nil => simp at h
  | cons x xs ih =>
    rcases List.mem_cons.mp h with heq | h
    · refine ⟨{ x with ranking := k }, List.mem_cons_self _ _, ?_⟩
      rw [eraseRank_setRank, heq]
    · rcases ih h (k + 1) with ⟨e, he, heq⟩
      exact ⟨e, List.mem_cons_of_mem _ he, heq⟩

/-! ## Lemmas about stat extraction and accumulation -/

/-- A stat whose name is not among the queried names contributes nothing to
the extraction — whatever its value — and cannot make it fail. -/
lemma extractFrom_unmatched (names : List String) (s : Stat) (hs : s.name ∉ names) :
    ∀ (l₁ l₂ : List Stat) (t : Int),
      extractFrom names t (l₁ ++ s :: l₂) = extractFrom names t (l₁ ++ l₂) := by
  intro l₁
  induction l₁ with
  | nil =>
    intro l₂ t
    simp [extractFrom, hs]
  | cons x l₁ ih =>
    intro l₂ t
    by_cases hx : x.name ∈ names
    · simp only [List.cons_append, extractFrom, if_pos hx]
      cases pyInt x.value with
      | none => rfl
      | some v => exact ih l₂ (t + v)
    · simp only [List.cons_append, extractFrom, if_neg hx]
      exact ih l₂ t

/-- A stat whose name *is* among the queried names and whose value is not
numeric makes the whole extraction fail. -/
lemma extractFrom_badstat (names : List String) {s : Stat} {stats : List Stat}
    (hmem : s ∈ stats) (hname : s.name ∈ names) (hbad : pyInt s.value = none) :
    ∀ t : Int, extractFrom names t stats = none := by
  induction stats with
  | nil => simp at hmem
  | cons x rest ih =>
    intro t
    rcases List.mem_cons.mp hmem with heq | hmem'
    · subst heq
      simp [extractFrom, hname, hbad]
    · by_cases hx : x.name ∈ names
      · simp only [extractFrom, if_pos hx]
        cases pyInt x.value with
        | none => rfl
        | some v => exact ih hmem' (t + v)
      · simp only [extractFrom, if_neg hx]
        exact ih hmem' t

/-- A successful extraction with a nonzero total saw at least one stat with
a queried name (an empty match set always totals the initial value). -/
lemma extractFrom_no_match (names : List String) {stats : List Stat}
    (h : ∀ s ∈ stats, s.name ∉ names) (t : Int) :
    extractFrom names t stats = some t := by
  induction stats generalizing t with
  | nil => rfl
  | cons x rest ih =>
    have hx := h x (List.mem_cons_self x rest)
    simp only [extractFrom, if_neg hx]
    exact ih (fun s hs => h s (List.mem_cons_of_mem x hs)) t

/-- When the eight per-category extractions all succeed, each category's
extraction result is the corresponding component of `playerValues`. -/
lemma playerValues_eq {st : List Stat} {f : Category → Int}
    (h : playerValues st = some f) (c : Category) :
    extract_stat_value st c.statNames = some (f c) := by
  simp only [playerValues, bind, Option.bind_eq_some, pure, Option.some.injEq] at h
  rcases h with ⟨g, hg, a, ha, s, hs, p, hp, i, hi, t, ht, r, hr, y, hy, hf⟩
  cases c <;>
    simp_all [Category.statNames, extract_stat_value, ← hf]

/-- Unfolding `accumulate` over a player without a `"stat"` key. -/
lemma accumulate_cons_none {cache : Cache} {tm : List (String × String)} {p : Player}
    (hp : p.stat = none) (ps : List Player) (acc : PlayerLeaderboards) :
    accumulate cache tm (p :: ps) acc = accumulate cache tm ps acc := by
  simp [accumulate, hp]

/-- Unfolding `accumulate` over a player whose stat values fail to parse. -/
lemma accumulate_cons_bad {cache : Cache} {tm : List (String × String)} {p : Player}
    {st : List Stat} (hp : p.stat = some st) (hpv : playerValues st = none)
    (ps : List Player) (acc : PlayerLeaderboards) :
    accumulate cache tm (p :: ps) acc = none := by
  simp [accumulate, hp, hpv]

/-- Unfolding `accumulate` over a player whose stat values parse. -/
lemma accumulate_cons_good {cache : Cache} {tm : List (String × String)} {p : Player}
    {st : List Stat} {f : Category → Int} (hp : p.stat = some st)
    (hpv : playerValues st = some f) (ps : List Player) (acc : PlayerLeaderboards) :
    accumulate cache tm (p :: ps) acc =
      accumulate cache tm ps (fun c => acc c ++
        (if f c > 0 then [{ playerEntryBase tm cache p with value := f c }] else [])) := by
  simp [accumulate, hp, hpv]

/-- Accumulation succeeds only if every processed player's stat values all
parse. -/
lemma accumulate_ok {cache : Cache} {tm : List (String × String)} :
    ∀ {ps : List Player} {acc A : PlayerLeaderboards},
      accumulate cache tm ps acc = some A →
      ∀ p ∈ ps, ∀ st, p.stat = some st → ∃ f, playerValues st = some f := by
  intro ps
  induction ps with
  | nil => intro acc A _ p hp; simp at hp
  | cons q qs ih =>
    intro acc A h p hp st hst
    rcases List.mem_cons.mp hp with heq | hp'
    · subst heq
      cases hpv : playerValues st with
      | none => rw [accumulate_cons_bad hst hpv] at h; cases h
      | some f => exact ⟨f, rfl⟩
    · cases hqs : q.stat with
      | none =>
        rw [accumulate_cons_none hqs] at h
        exact ih h p hp' st hst
      | some st' =>
        cases hpv : playerValues st' with
        | none => rw [accumulate_cons_bad hqs hpv] at h; cases h
        | some f =>
          rw [accumulate_cons_good hqs hpv] at h
          exact ih h p hp' st hst

/-- Characterization of the accumulated category lists: an entry is in the
final accumulator iff it was in the initial accumulator or is the entry of
some processed player whose extracted value for the category is strictly
positive. -/
lemma mem_accumulate {cache : Cache} {tm : List (String × String)} :
    ∀ {ps : List Player} {acc A : PlayerLeaderboards},
      accumulate cache tm ps acc = some A →
      ∀ (c : Category) (e : LeaderboardEntry),
        e ∈ A c ↔ e ∈ acc c ∨ ∃ p ∈ ps, ∃ st, p.stat = some st ∧
          ∃ f, playerValues st = some f ∧ 0 < f c ∧
            e = { playerEntryBase tm cache p with value := f c } := by
  intro ps
  induction ps with
  | nil =>
    intro acc A h c e
    rw [accumulate] at h
    cases h
    simp
  | cons q qs ih =>
    intro acc A h c e
    cases hqs : q.stat with
    | none =>
      rw [accumulate_cons_none hqs] at h
      rw [ih h c e]
      constructor
      · rintro (hacc | hqs')
        · exact Or.inl hacc
        · rcases hqs' with ⟨p, hp, rest⟩
          exact Or.inr ⟨p, List.mem_cons_of_mem q hp, rest⟩
      · rintro (hacc | ⟨p, hp, st, hst, rest⟩)
        · exact Or.inl hacc
        · rcases List.mem_cons.mp hp with heq | hp'
          · subst heq; rw [hqs] at hst; cases hst
          · exact Or.inr ⟨p, hp', st, hst, rest⟩
    | some st =>
      cases hpv : playerValues st with
      | none => rw [accumulate_cons_bad hqs hpv] at h; cases h
      | some f =>
        rw [accumulate_cons_good hqs hpv] at h
        rw [ih h c e]
        simp only [List.mem_append]
        constructor
        · rintro ((hacc | hnew) | ⟨p, hp, rest⟩)
          · exact Or.inl hacc
          · refine Or.inr ⟨q, List.mem_cons_self q qs, st, hqs, f, hpv, ?_⟩
            by_cases hpos : 0 < f c
            · simp only [if_pos hpos, List.mem_singleton] at hnew
              exact ⟨hpos, hnew⟩
            · simp [if_neg hpos] at hnew
          · exact Or.inr ⟨p, List.mem_cons_of_mem q hp, rest⟩
        · rintro (hacc | ⟨p, hp, st', hst', f', hpv', hpos', heq'⟩)
          · exact Or.inl (Or.inl hacc)
          · rcases List.mem_cons.mp hp with heq | hp'
            · subst heq
              rw [hqs] at hst'
              cases hst'
              rw [hpv] at hpv'
              cases hpv'
              exact Or.inl (Or.inr (by simp [if_pos hpos', heq']))
            · exact Or.inr ⟨p, hp', st', hst', f', hpv', hpos', heq'⟩

/-- Unpacking a successful leaderboard computation into its accumulation
and its per-category sort-and-rank pass. -/
lemma calculate_eq_some {cache : Cache} {ps : PlayerStats} {ts : TeamStats}
    {L : PlayerLeaderboards} (h : calculate_player_leaderboards cache ps ts = some L) :
    ∃ A, accumulate cache (team_map ts) ps.player (fun _ => []) = some A ∧
      ∀ c, L c = rankFrom 1 (sortDesc (A c)) := by
  simp only [calculate_player_leaderboards, Option.map_eq_some'] at h
  rcases h with ⟨A, hA, hL⟩
  exact ⟨A, hA, fun c => by rw [← hL]⟩

/-- Players without a `"stat"` key are invisible to the accumulation. -/
lemma accumulate_filter {cache : Cache} {tm : List (String × String)} :
    ∀ (ps : List Player) (acc : PlayerLeaderboards),
      accumulate cache tm (ps.filter (fun p => p.stat.isSome)) acc =
        accumulate cache tm ps acc := by
  intro ps
  induction ps with
  | nil => intro acc; rfl
  | cons q qs ih =>
    intro acc
    cases hqs : q.stat with
    | none =>
      rw [List.filter_cons_of_neg (by simp [hqs])]
      rw [accumulate_cons_none hqs]
      exact ih acc
    | some st =>
      rw [List.filter_cons_of_pos (by simp [hqs])]
      cases hpv : playerValues st with
      | none => rw [accumulate_cons_bad hqs hpv, accumulate_cons_bad hqs hpv]
      | some f =>
        rw [accumulate_cons_good hqs hpv, accumulate_cons_good hqs hpv]
        exact ih _

/-- Accumulating players that all lack stats leaves the accumulator
untouched. -/
lemma accumulate_no_stats {cache : Cache} {tm : List (String × String)} :
    ∀ {ps : List Player}, (∀ p ∈ ps, p.stat = none) →
      ∀ acc, accumulate cache tm ps acc = some acc := by
  intro ps
  induction ps with
  | nil => intro _ acc; rfl
  | cons q qs ih =>
    intro h acc
    rw [accumulate_cons_none (h q (List.mem_cons_self q qs))]
    exact ih (fun p hp => h p (List.mem_cons_of_mem q hp)) acc

/-! ## Lemmas about the dictionary model -/

lemma dget_dset_same (d : Dict) (k : String) (v : Val) : dget (dset d k v) k = some v := by
  induction d with
  | nil => simp [dset, dget]
  | cons h rest ih =>
    obtain ⟨k', v'⟩ := h
    by_cases hk : k' = k
    · simp [dset, hk, dget]
    · simp [dset, hk, dget, ih]

lemma dget_dset_other (d : Dict) {k k' : String} (h : k' ≠ k) (v : Val) :
    dget (dset d k v) k' = dget d k' := by
  have hne : ¬ k = k' := fun he => h he.symm
  induction d with
  | nil =>
    simp only [dset, dget]
    rw [if_neg hne]
  | cons hd rest ih =>
    obtain ⟨k₀, v₀⟩ := hd
    by_cases hk : k₀ = k
    · subst hk
      simp only [dset, if_pos rfl, dget]
      rw [if_neg hne, if_neg hne]
    · simp only [dset, if_neg hk, dget]
      by_cases hk' : k₀ = k'
      · rw [if_pos hk', if_pos hk']
      · rw [if_neg hk', if_neg hk', ih]

/-- C7.  For every record and player id, `_enrich_player_data` changes at
most the `image_url` and `bio` fields: on a cache hit those two keys are
set to the cached values, on a miss the record is returned completely
unmodified, and every key other than `image_url`/`bio` is unchanged in both
cases.  The function is a total pure function of the cache and the record
(it never raises and performs no fetch). -/
theorem enrich_player_data_frame (cache : Cache) (d : Dict) (pid : String) :
    (∀ k, k ≠ "image_url" → k ≠ "bio" →
        dget (enrich_player_data cache d pid) k = dget d k) ∧
    (clookup cache pid = none → enrich_player_data cache d pid = d) ∧
    (∀ e, clookup cache pid = some e →
        dget (enrich_player_data cache d pid) "image_url" = some (.str e.image_url) ∧
        dget (enrich_player_data cache d pid) "bio" = some (.str e.bio)) := by
  refine ⟨?_, ?_, ?_⟩
  · intro k hk1 hk2
    unfold enrich_player_data
    cases clookup cache pid with
    | none => rfl
    | some e => rw [dget_dset_other _ hk2, dget_dset_other _ hk1]
  · intro h
    unfold enrich_player_data
    rw [h]
  · intro e he
    unfold enrich_player_data
    rw [he]
    refine ⟨?_, dget_dset_same _ _ _⟩
    rw [dget_dset_other _ (by decide), dget_dset_same]

/-- Witness for C7: a record with an `id` and a stale `bio`, enriched
against a one-entry cache, keeps its `id` field untouched. -/
theorem enrich_player_data_frame_witness :
    dget (enrich_player_data [("p1", { image_url := "img", bio := "b", name := "n" })]
        [("id", Val.str "p1"), ("bio", Val.str "old")] "p1") "id" =
      dget [("id", Val.str "p1"), ("bio", Val.str "old")] "id" :=
  (enrich_player_data_frame [("p1", { image_url := "img", bio := "b", name := "n" })]
    [("id", Val.str "p1"), ("bio", Val.str "old")] "p1").1 "id" (by decide) (by decide)

/-! ## Theorems about the HTTP error layer -/

/-- C9.  A request that exceeds the configured timeout raises
`APITimeoutError` — never `RequestError`; any other transport or non-2xx
failure raises `RequestError`; both preserve the underlying `httpx` cause. -/
theorem get_error_kinds (α : Type) (m : String) :
    get (Except.error (HttpxError.timeout m) : Except HttpxError α) =
        .error (.apiTimeout ("Timeout error: " ++ m) (.timeout m)) ∧
    (∀ msg cause, get (Except.error (HttpxError.timeout m) : Except HttpxError α) ≠
        .error (.requestError msg cause)) ∧
    get (Except.error (HttpxError.httpError m) : Except HttpxError α) =
        .error (.requestError ("Error fetching data: " ++ m) (.httpError m)) := by
  refine ⟨rfl, ?_, rfl⟩
  intro msg cause h
  simp [get] at h

/-- Witness for C9 at a concrete timeout message. -/
theorem get_error_kinds_witness :
    get (Except.error (HttpxError.timeout "deadline") : Except HttpxError Unit) =
      .error (.apiTimeout ("Timeout error: " ++ "deadline") (.timeout "deadline")) :=
  (get_error_kinds Unit "deadline").1

/-- C8.  A roster fetch failing with a `RequestError` whose message
contains `"404"` returns the empty-shape sentinel `{squad: [], lastUpdated:
""}`; a `RequestError` without `"404"` in its message propagates unchanged,
and a timeout propagates unchanged as `APITimeoutError` (it is not caught
by `except RequestError`).  The `_get` wrapper prefixes the transport
message with `"Error fetching data: "`, and the `"404"` test string-matches
that full message. -/
theorem get_roster_404 (cache : Cache) (m : String) :
    (hasSub "404" ("Error fetching data: " ++ m) = true →
      get_roster cache (.error (.httpError m)) = .ok { squad := [], lastUpdated := "" }) ∧
    (hasSub "404" ("Error fetching data: " ++ m) = false →
      get_roster cache (.error (.httpError m)) =
        .error (.requestError ("Error fetching data: " ++ m) (.httpError m))) ∧
    get_roster cache (.error (.timeout m)) =
      .error (.apiTimeout ("Timeout error: " ++ m) (.timeout m)) := by
  refine ⟨?_, ?_, rfl⟩ <;> intro h <;> simp [get_roster, get, h]

/-- Witness for C8: a 404-flavoured message yields the sentinel. -/
theorem get_roster_404_witness :
    get_roster [] (.error (.httpError "404 Not Found")) =
      .ok { squad := [], lastUpdated := "" } :=
  (get_roster_404 [] "404 Not Found").1 (by decide)

/-- C10.  `get_team_stats` and `get_player_stats` downgrade a
`RequestError` whose message contains `"404"` to the empty-shape sentinels
`{ip: "", feeds: [], contestant: []}` and `{ip: "", feeds: [], player: []}`
respectively; every other `RequestError` propagates unchanged (and a
timeout propagates as `APITimeoutError`). -/
theorem stats_404_sentinels (cache : Cache) (m : String) :
    (hasSub "404" ("Error fetching data: " ++ m) = true →
      get_team_stats (.error (.httpError m)) =
          .ok { ip := "", feeds := [], contestant := [] } ∧
      get_player_stats cache (.error (.httpError m)) =
          .ok { ip := "", feeds := [], player := [] }) ∧
    (hasSub "404" ("Error fetching data: " ++ m) = false →
      get_team_stats (.error (.httpError m)) =
          .error (.requestError ("Error fetching data: " ++ m) (.httpError m)) ∧
      get_player_stats cache (.error (.httpError m)) =
          .error (.requestError ("Error fetching data: " ++ m) (.httpError m))) ∧
    get_team_stats (.error (.timeout m)) =
        .error (.apiTimeout ("Timeout error: " ++ m) (.timeout m)) ∧
    get_player_stats cache (.error (.timeout m)) =
        .error (.apiTimeout ("Timeout error: " ++ m) (.timeout m)) := by
  refine ⟨?_, ?_, rfl, rfl⟩ <;> intro h <;>
    exact ⟨by simp [get_team_stats, get, h], by simp [get_player_stats, get, h]⟩

/-- Witness for C10 at a concrete 404 message. -/
theorem stats_404_sentinels_witness :
    get_team_stats (.error (.httpError "404 Not Found")) =
        .ok { ip := "", feeds := [], contestant := [] } ∧
    get_player_stats [] (.error (.httpError "404 Not Found")) =
        .ok { ip := "", feeds := [], player := [] } :=
  (stats_404_sentinels [] "404 Not Found").1 (by decide)

/-! ## Concrete fixtures for the leaderboard claims -/

/-- A minimal player record carrying a single `"Goals"` stat with the given
string value. -/
def goalsPlayer (pid v : String) : Player :=
  { position := "F", id := pid, shirtNumber := "9", firstName := "A", lastName := "B",
    shortFirstName := "A", shortLastName := "B", matchName := "AB", team := "T",
    stat := some [{ name := "Goals", value := v }] }

/-- A team-stats payload with no contestants (the team-name map is empty). -/
def emptyTeams : TeamStats := { ip := "", feeds := [], contestant := [] }

/-- Six players with distinct positive goal counts 1–6: more qualifying
players than the advertised leaderboard size limit of 5. -/
def sixGoalsInput : PlayerStats :=
  { ip := "", feeds := [],
    player := [goalsPlayer "p1" "1", goalsPlayer "p2" "2", goalsPlayer "p3" "3",
               goalsPlayer "p4" "4", goalsPlayer "p5" "5", goalsPlayer "p6" "6"] }

/-- One player whose `"Goals"` stat is present with value `"0"`. -/
def zeroGoalsInput : PlayerStats :=
  { ip := "", feeds := [], player := [goalsPlayer "p1" "0"] }

/-- One player whose `"Goals"` stat has the non-numeric value `"?"`. -/
def badValueInput : PlayerStats :=
  { ip := "", feeds := [], player := [goalsPlayer "p1" "?"] }

/-- One player with three goals. -/
def oneGoalInput : PlayerStats :=
  { ip := "", feeds := [], player := [goalsPlayer "p1" "3"] }

/-- Two players tied at two goals each. -/
def tiedGoalsInput : PlayerStats :=
  { ip := "", feeds := [], player := [goalsPlayer "p1" "2", goalsPlayer "p2" "2"] }

/-- One player with no `"stat"` key at all. -/
def noStatsInput : PlayerStats :=
  { ip := "", feeds := [],
    player := [{ position := "F", id := "p1", shirtNumber := "9", firstName := "A",
                 lastName := "B", shortFirstName := "A", shortLastName := "B",
                 matchName := "AB", team := "T", stat := none }] }

/-- The leaderboard entry produced for `goalsPlayer pid _` against
`emptyTeams` and an empty cache, with the given value and ranking. -/
def goalsEntry (pid : String) (v r : Int) : LeaderboardEntry :=
  { player_id := pid, full_name := "A B", position := "F", shirt_number := "9",
    short_first_name := "A", short_last_name := "B", match_name := "AB", team_id := "T",
    team_name := "", value := v, ranking := r }

/-! ## Theorems about the leaderboard engine -/

lemma value_eq_of_eraseRank {a b : LeaderboardEntry} (h : eraseRank a = eraseRank b) :
    a.value = b.value := by
  have h' := congrArg (fun x => x.value) h
  simpa using h'

/-- Filtering on a value and forgetting rankings commutes with the ranking
pass. -/
lemma filter_map_eraseRank_rankFrom (v k : Int) (l : List LeaderboardEntry) :
    ((rankFrom k l).filter (fun e => e.value = v)).map eraseRank =
      (l.filter (fun e => e.value = v)).map eraseRank := by
  induction l generalizing k with
  | nil => rfl
  | cons e es ih =>
    by_cases he : e.value = v
    · rw [rankFrom, List.filter_cons_of_pos (by simpa using he),
        List.filter_cons_of_pos (by simpa using he)]
      simp [eraseRank_setRank, ih]
    · rw [rankFrom, List.filter_cons_of_neg (by simpa using he),
        List.filter_cons_of_neg (by simpa using he)]
      exact ih (k + 1)

/-- C1 (refuting the truncation step on the code as written): with six
qualifying players, the `GOALS` category of the computed leaderboard has
`LEADERBOARD_LIMIT + 1 = 6` entries.  `_calculate_player_leaderboards`
sorts and ranks each category but never truncates it, and `client.py`
never reads the `LEADERBOARD_LIMIT` constant that `constants.py` defines
for this purpose. -/
theorem no_truncation_with_six_players :
    (boardsAt (calculate_player_leaderboards [] sixGoalsInput emptyTeams) .GOALS).map
        List.length = some (LEADERBOARD_LIMIT + 1) := by
  decide

/-- C2 (counterexample to the claim as stated): the single player of
`zeroGoalsInput` has a stat for the GOALS category in its stats list, yet
the produced GOALS leaderboard is empty, because the code appends an entry
only when the *summed value* is strictly positive, not when the stat is
merely present. -/
theorem zero_valued_stat_gives_no_entry :
    (∃ p ∈ zeroGoalsInput.player, ∃ st, p.stat = some st ∧
        ∃ s ∈ st, s.name ∈ Category.GOALS.statNames) ∧
    boardsAt (calculate_player_leaderboards [] zeroGoalsInput emptyTeams) .GOALS =
      some [] := by
  exact ⟨by decide, by decide⟩

/-- C2 amended.  An entry for player `p` is appended to category `c`
iff the summed integer value of `p`'s stats with `c`'s stat names is
strictly positive.  Forwards: every player whose extracted value for `c` is
positive yields an entry of that value in the output (up to the ranking
field).  Backwards: every output entry has a strictly positive value
extracted from some input player's stats, and that player's stats contain
at least one stat with one of `c`'s names. -/
theorem leaderboard_entry_iff (cache : Cache) (ps : PlayerStats) (ts : TeamStats)
    (c : Category) (ll : List LeaderboardEntry)
    (hll : boardsAt (calculate_player_leaderboards cache ps ts) c = some ll) :
    (∀ p ∈ ps.player, ∀ st, p.stat = some st →
      ∀ v, extract_stat_value st c.statNames = some v → 0 < v →
        ∃ e ∈ ll, eraseRank e =
          eraseRank { playerEntryBase (team_map ts) cache p with value := v }) ∧
    (∀ e ∈ ll, 0 < e.value ∧ ∃ p ∈ ps.player, ∃ st, p.stat = some st ∧
      extract_stat_value st c.statNames = some e.value ∧
      ∃ s ∈ st, s.name ∈ c.statNames) := by
  simp only [boardsAt, Option.map_eq_some'] at hll
  rcases hll with ⟨L, hcalc, hLc⟩
  rcases calculate_eq_some hcalc with ⟨A, hA, hL⟩
  have hllr : ll = rankFrom 1 (sortDesc (A c)) := by rw [← hLc, hL c]
  constructor
  · intro p hp st hst v hv hpos
    obtain ⟨f, hf⟩ := accumulate_ok hA p hp st hst
    have hfc := playerValues_eq hf c
    rw [hv] at hfc
    have hvf : v = f c := Option.some.inj hfc
    have hmem : { playerEntryBase (team_map ts) cache p with value := f c } ∈ A c :=
      (mem_accumulate hA c _).mpr
        (Or.inr ⟨p, hp, st, hst, f, hf, hvf ▸ hpos, rfl⟩)
    have hmem' : { playerEntryBase (team_map ts) cache p with value := f c } ∈
        sortDesc (A c) := mem_sortDesc.mpr hmem
    obtain ⟨e, he, heq⟩ := mem_rankFrom_of_mem hmem' 1
    refine ⟨e, by rw [hllr]; exact he, ?_⟩
    rw [heq, hvf]
  · intro e he
    rw [hllr] at he
    obtain ⟨e', he', heq⟩ := of_mem_rankFrom he
    have he'A : e' ∈ A c := mem_sortDesc.mp he'
    rcases (mem_accumulate hA c e').mp he'A with hempty | ⟨p, hp, st, hst, f, hf, hpos, heq'⟩
    · cases hempty
    have hval : e.value = f c := by
      rw [value_eq_of_eraseRank heq, heq']
    refine ⟨hval ▸ hpos, p, hp, st, hst, ?_, ?_⟩
    · rw [hval]
      exact playerValues_eq hf c
    · by_contra hno
      push_neg at hno
      have hzero : extractFrom c.statNames 0 st = some 0 :=
        extractFrom_no_match c.statNames hno 0
      have hsome := playerValues_eq hf c
      simp only [extract_stat_value] at hsome
      rw [hzero] at hsome
      have : (0 : Int) = f c := Option.some.inj hsome
      omega

/-- Witness for C2 (amended): the single three-goal player of
`oneGoalInput` yields a GOALS entry of value 3. -/
theorem leaderboard_entry_iff_witness :
    ∃ e ∈ [goalsEntry "p1" 3 1], eraseRank e =
      eraseRank { playerEntryBase (team_map emptyTeams) [] (goalsPlayer "p1" "3")
                    with value := 3 } :=
  (leaderboard_entry_iff [] oneGoalInput emptyTeams .GOALS [goalsEntry "p1" 3 1]
      (by decide)).1
    (goalsPlayer "p1" "3") (by decide) [{ name := "Goals", value := "3" }] rfl
    3 (by decide) (by decide)

/-- C3 (counterexample to the claim as stated): a `"Goals"` stat whose
value is the non-numeric string `"?"` makes the whole leaderboard
computation fail (`int()` raises `ValueError`), rather than being ignored. -/
theorem non_numeric_stat_value_errors :
    boardsAt (calculate_player_leaderboards [] badValueInput emptyTeams) .GOALS = none := by
  decide

/-- C3 amended.  A stat whose name is not among the queried names is
ignored — whatever its value — and never causes an error; but a stat whose
name *is* queried and whose value is non-numeric makes `_extract_stat_value`
raise, and that error propagates: the whole leaderboard computation fails
for any input containing such a player. -/
theorem stat_value_error_behaviour (names : List String) (s : Stat) (stats : List Stat)
    (cache : Cache) (ps : PlayerStats) (ts : TeamStats) :
    (s.name ∉ names →
      ∀ (l₁ l₂ : List Stat) (t : Int),
        extractFrom names t (l₁ ++ s :: l₂) = extractFrom names t (l₁ ++ l₂)) ∧
    (s.name ∈ names → pyInt s.value = none → s ∈ stats →
      extract_stat_value stats names = none) ∧
    (∀ p ∈ ps.player, ∀ st, p.stat = some st → ∀ c : Category,
      s ∈ st → s.name ∈ c.statNames → pyInt s.value = none →
      calculate_player_leaderboards cache ps ts = none) := by
  refine ⟨fun h => extractFrom_unmatched names s h,
    fun h1 h2 h3 => extractFrom_badstat names h3 h1 h2 0, ?_⟩
  intro p hp st hst c hsst hsname hbad
  cases hcalc : calculate_player_leaderboards cache ps ts with
  | none => rfl
  | some L =>
    rcases calculate_eq_some hcalc with ⟨A, hA, _⟩
    obtain ⟨f, hf⟩ := accumulate_ok hA p hp st hst
    have hfc := playerValues_eq hf c
    have hnone : extractFrom c.statNames 0 st = none :=
      extractFrom_badstat c.statNames hsst hsname hbad 0
    simp only [extract_stat_value] at hfc
    rw [hnone] at hfc
    cases hfc

/-- Witness for C3 (amended): the computation on `badValueInput` fails. -/
theorem stat_value_error_behaviour_witness :
    calculate_player_leaderboards [] badValueInput emptyTeams = none :=
  (stat_value_error_behaviour ["Goals"] { name := "Goals", value := "?" }
      [{ name := "Goals", value := "?" }] [] badValueInput emptyTeams).2.2
    (goalsPlayer "p1" "?") (by decide) [{ name := "Goals", value := "?" }] rfl
    .GOALS (by decide) (by decide) (by decide)

/-- C4 (counterexample to the claim as stated): with six qualifying
players the rankings of the GOALS category are 1–6; the rank 6 exceeds
`min LEADERBOARD_LIMIT 6 = 5`, so rankings are *not* confined to
`1..min(N, count)` — no truncation happens. -/
theorem ranking_exceeds_limit :
    (boardsAt (calculate_player_leaderboards [] sixGoalsInput emptyTeams) .GOALS).map
        (List.map (fun e => e.ranking)) = some [1, 2, 3, 4, 5, 6] ∧
    (6 : Int) ∉ intRange 1 (min LEADERBOARD_LIMIT 6) := by
  exact ⟨by decide, by decide⟩

/-- C4 amended.  Every non-empty category of a successful computation
is in descending order of `value`, and the rankings are exactly the
contiguous range `1..count` of 1-based sorted positions (with no
truncation, `count` is the full number of qualifying entries). -/
theorem sorted_and_contiguous_rankings (cache : Cache) (ps : PlayerStats) (ts : TeamStats)
    (c : Category) (ll : List LeaderboardEntry)
    (hll : boardsAt (calculate_player_leaderboards cache ps ts) c = some ll) :
    ll.Pairwise (fun a b => b.value ≤ a.value) ∧
    ll.map (fun e => e.ranking) = intRange 1 ll.length := by
  simp only [boardsAt, Option.map_eq_some'] at hll
  rcases hll with ⟨L, hcalc, hLc⟩
  rcases calculate_eq_some hcalc with ⟨A, hA, hL⟩
  have hllr : ll = rankFrom 1 (sortDesc (A c)) := by rw [← hLc, hL c]
  subst hllr
  refine ⟨pairwise_rankFrom 1 (sorted_sortDesc (A c)), ?_⟩
  rw [map_ranking_rankFrom, length_rankFrom]

/-- Witness for C4 (amended) on the one-player input. -/
theorem sorted_and_contiguous_rankings_witness :
    boardsAt (calculate_player_leaderboards [] oneGoalInput emptyTeams) .GOALS =
        some [goalsEntry "p1" 3 1] ∧
    ([goalsEntry "p1" 3 1].Pairwise (fun a b => b.value ≤ a.value) ∧
      [goalsEntry "p1" 3 1].map (fun e => e.ranking) =
        intRange 1 [goalsEntry "p1" 3 1].length) :=
  ⟨by decide,
    sorted_and_contiguous_rankings [] oneGoalInput emptyTeams .GOALS
      [goalsEntry "p1" 3 1] (by decide)⟩

/-- C5.  The per-category sort is stable: restricted to the entries of
any one `value` (and disregarding the ranking field, which the final pass
rewrites), the sorted category list equals the accumulated list, which the
engine builds in encounter order over the input player list.  Together with
the purely functional model this makes the output deterministic in the
input order. -/
theorem stable_ties (cache : Cache) (ps : PlayerStats) (ts : TeamStats)
    (c : Category) (v : Int) (la ll : List LeaderboardEntry)
    (ha : boardsAt (accumulate cache (team_map ts) ps.player (fun _ => [])) c = some la)
    (hl : boardsAt (calculate_player_leaderboards cache ps ts) c = some ll) :
    (ll.filter (fun e => e.value = v)).map eraseRank =
      (la.filter (fun e => e.value = v)).map eraseRank := by
  simp only [boardsAt, Option.map_eq_some'] at ha hl
  rcases ha with ⟨A, hA, hAc⟩
  rcases hl with ⟨L, hcalc, hLc⟩
  rcases calculate_eq_some hcalc with ⟨A', hA', hL⟩
  rw [hA] at hA'
  have : A = A' := Option.some.inj hA'
  subst this
  have hllr : ll = rankFrom 1 (sortDesc la) := by rw [← hLc, hL c, hAc]
  subst hllr
  rw [filter_map_eraseRank_rankFrom, filter_sortDesc]

/-- Witness for C5: the two tied players of `tiedGoalsInput` appear in
encounter order before and after sorting. -/
theorem stable_ties_witness :
    ((([goalsEntry "p1" 2 1, goalsEntry "p2" 2 2] :
          List LeaderboardEntry).filter (fun e => e.value = 2)).map eraseRank =
      (([goalsEntry "p1" 2 0, goalsEntry "p2" 2 0] :
          List LeaderboardEntry).filter (fun e => e.value = 2)).map eraseRank) :=
  stable_ties [] tiedGoalsInput emptyTeams .GOALS 2
    [goalsEntry "p1" 2 0, goalsEntry "p2" 2 0]
    [goalsEntry "p1" 2 1, goalsEntry "p2" 2 2]
    (by decide) (by decide)

/-- C6.  Players without a `"stat"` key contribute nothing: dropping
them from the input leaves every category of the output unchanged; and when
*no* player has stats, every category is present as `some []` — an empty
sequence, not an error. -/
theorem no_stats_no_entries (cache : Cache) (ps : PlayerStats) (ts : TeamStats) :
    (∀ c, boardsAt (calculate_player_leaderboards cache
        { ps with player := ps.player.filter (fun p => p.stat.isSome) } ts) c =
      boardsAt (calculate_player_leaderboards cache ps ts) c) ∧
    ((∀ p ∈ ps.player, p.stat = none) →
      ∀ c, boardsAt (calculate_player_leaderboards cache ps ts) c = some []) := by
  constructor
  · intro c
    simp only [calculate_player_leaderboards, boardsAt]
    rw [accumulate_filter]
  · intro h c
    simp only [calculate_player_leaderboards, boardsAt]
    rw [accumulate_no_stats h]
    simp [sortDesc, rankFrom]

/-- Witness for C6: the stat-less player of `noStatsInput` yields an empty
GOALS category. -/
theorem no_stats_no_entries_witness :
    boardsAt (calculate_player_leaderboards [] noStatsInput emptyTeams) .GOALS = some [] :=
  (no_stats_no_entries [] noStatsInput emptyTeams).2 (by decide) .GOALS

end CPL
